import Mathlib

/-!
Shallow embedding of the client-side upload pipeline of src/app/page.tsx:
the chunked resumable upload (resumableUpload, uploadChunk), the progress
model, image compression (compressImage), the per-file dispatch and error
handling of handleUnifiedUpload, and video file selection
(handleVideoFileSelect).

A browser File is modelled by its size and its byte content; the network
and the DOM are modelled by explicit oracles/environments: the outcome of
every chunk PUT attempt is given by a function from (chunk index, attempt
number) to an XMLHttpRequest outcome, and the responses of the two JSON
endpoints are fields of an environment record.
-/

/-- A selected browser File: its size in bytes and its content
(byte i of the file is byte i, for i < size). -/
structure JsFile where
  size : ℕ
  byte : ℕ → ℕ

/-- The byte sequence of a file. -/
def JsFile.bytes (f : JsFile) : List ℕ := (List.range f.size).map f.byte

/-- file.slice(s, e): the bytes s .. e-1 of the file. -/
def JsFile.slice (f : JsFile) (s e : ℕ) : List ℕ := (f.bytes.drop s).take (e - s)

/-- chunkSize = 256 * 1024 (page.tsx line 147). -/
def chunkSize : ℕ := 256 * 1024

/-- totalChunks = Math.ceil(file.size / chunkSize) (page.tsx line 148). -/
def totalChunks (n : ℕ) : ℕ := (n + chunkSize - 1) / chunkSize

/-- Outcome of one chunk PUT as observed by the XMLHttpRequest handlers of
uploadChunk: a load event carrying an HTTP status, a network error event,
or a timeout event. -/
inductive XhrOutcome where
  | load (status : ℕ)
  | netError
  | timeout
deriving DecidableEq

/-- uploadChunk's resolution value (page.tsx lines 176-212): true on
status 308 and on any 2xx status, false on every other status, on a
network error and on a timeout.  The promise only ever resolves (the
executor never calls reject), so it is a total function into Bool. -/
def uploadChunk : XhrOutcome → Bool
  | .load s => s == 308 || (decide (200 ≤ s) && decide (s < 300))
  | .netError => false
  | .timeout => false

/-- xhr.timeout = 30000 milliseconds per chunk request (page.tsx line 181). -/
def chunkTimeoutMs : ℕ := 30000

/-- One chunk PUT request as issued by resumableUpload: the chunk index,
the byte range (endIncl is the inclusive index of the last byte), the
total file size, the Content-Range header, and the request body. -/
structure PutEvent where
  chunkIndex : ℕ
  first : ℕ
  endIncl : ℕ
  totalSize : ℕ
  contentRange : String
  body : List ℕ
deriving DecidableEq

/-- The chunk of bytes cut for index i:
file.slice(i * chunkSize, min((i+1) * chunkSize, file.size)) (page.tsx
lines 153-155). -/
def chunkOf (f : JsFile) (i : ℕ) : List ℕ :=
  f.slice (i * chunkSize) (min ((i + 1) * chunkSize) f.size)

/-- The PUT request resumableUpload issues for chunk i (page.tsx lines
153-157 together with uploadChunk's lines 208-210): start = i * chunkSize,
end = min(start + chunkSize, file.size), body = file.slice(start, end),
Content-Range: bytes start-(end-1)/size. -/
def chunkEvent (f : JsFile) (i : ℕ) : PutEvent :=
  let s := i * chunkSize
  let e := min ((i + 1) * chunkSize) f.size
  { chunkIndex := i
    first := s
    endIncl := e - 1
    totalSize := f.size
    contentRange :=
      "bytes " ++ toString s ++ "-" ++ toString (e - 1) ++ "/" ++ toString f.size
    body := f.slice s e }

/-- JavaScript Math.round for the nonnegative arguments that occur here:
round half up, i.e. the floor of q + 1/2. -/
def jsRound (q : ℚ) : ℤ := ⌊q + 1/2⌋

/-- The progress value written after chunk i of a file of size n completes:
10 + Math.round((end / file.size) * 85) with end = min((i+1)*chunkSize, n)
(page.tsx line 169). -/
def progressAfter (n i : ℕ) : ℤ :=
  10 + jsRound (((min ((i + 1) * chunkSize) n : ℚ) / (n : ℚ)) * 85)

/-- Chunk i eventually succeeds: its first attempt or its single retry
resolves true (page.tsx lines 157-166). -/
def chunkSucceeds (oracle : ℕ → ℕ → XhrOutcome) (i : ℕ) : Bool :=
  uploadChunk (oracle i 0) || uploadChunk (oracle i 1)

/-- The message of the error resumableUpload throws when chunk i fails on
both attempts (page.tsx line 164). -/
def chunkFailMsg (i total : ℕ) : String :=
  "Failed to upload chunk " ++ toString (i + 1) ++ "/" ++ toString total
    ++ " after retry"

/-- The PUT events chunk i contributes when resumableUpload reaches it:
one event if the first attempt succeeds, and two events (the original and
the one retry, with identical byte range, Content-Range and body) if the
first attempt fails. -/
def attemptEvents (f : JsFile) (oracle : ℕ → ℕ → XhrOutcome) (i : ℕ) :
    List PutEvent :=
  if uploadChunk (oracle i 0) then [chunkEvent f i]
  else [chunkEvent f i, chunkEvent f i]

/-- Trace of one resumableUpload call: the PUT events it issued in order,
the progress values it wrote in order, and its result (ok, or the thrown
error message). -/
structure UploadTrace where
  events : List PutEvent
  progress : List ℤ
  result : Except String Unit

/-- The chunk loop of resumableUpload (page.tsx lines 152-171) over an
explicit list of chunk indices; the outcome of attempt a (0 = first
attempt, 1 = retry) on chunk i is oracle i a.  A chunk whose first attempt
fails is retried once; if the retry also fails the loop stops with an
error and no later chunk is processed. -/
def processChunks (f : JsFile) (oracle : ℕ → ℕ → XhrOutcome) :
    List ℕ → UploadTrace
  | [] => ⟨[], [], Except.ok ()⟩
  | i :: rest =>
    let ev := chunkEvent f i
    if uploadChunk (oracle i 0) then
      let r := processChunks f oracle rest
      ⟨ev :: r.events, progressAfter f.size i :: r.progress, r.result⟩
    else if uploadChunk (oracle i 1) then
      let r := processChunks f oracle rest
      ⟨ev :: ev :: r.events, progressAfter f.size i :: r.progress, r.result⟩
    else
      ⟨[ev, ev], [], Except.error (chunkFailMsg i (totalChunks f.size))⟩

/-- resumableUpload (page.tsx lines 146-174): sequentially uploads the
chunks 0, 1, ..., totalChunks - 1. -/
def resumableUpload (f : JsFile) (oracle : ℕ → ℕ → XhrOutcome) : UploadTrace :=
  processChunks f oracle (List.range (totalChunks f.size))

/-- Boolean list-prefix test (auxiliary for the string functions below). -/
def isPrefixB : List Char → List Char → Bool
  | [], _ => true
  | _ :: _, [] => false
  | a :: as, b :: bs => a == b && isPrefixB as bs

/-- Boolean substring test: pat occurs contiguously in the second list. -/
def containsB (pat : List Char) : List Char → Bool
  | [] => isPrefixB pat []
  | c :: rest => isPrefixB pat (c :: rest) || containsB pat rest

/-- JavaScript String.prototype.startsWith. -/
def startsWithB (s p : String) : Bool := isPrefixB p.toList s.toList

/-- JavaScript String.prototype.includes. -/
def includesB (s p : String) : Bool := containsB p.toList s.toList

/-- The error classification of handleUnifiedUpload's catch block (page.tsx
lines 392-398): an error is silently suppressed iff its message contains
CORS, Access-Control-Allow-Origin, Chunk or chunk. -/
def suppressedError (msg : String) : Bool :=
  (includesB msg "CORS" || includesB msg "Access-Control-Allow-Origin")
    || (includesB msg "Chunk" || includesB msg "chunk")

/-- A file as handed to handleUnifiedUpload / handleVideoFileSelect:
name, MIME type, and content. -/
structure FileDesc where
  name : String
  mime : String
  file : JsFile

/-- A network request issued by handleUnifiedUpload's per-file task:
the base64-JSON photo POST to /api/upload/photo, the session-URL POST to
/api/upload/video-url, or a chunk PUT against the session URL. -/
inductive Request where
  | photoPost (body : String)
  | videoUrl (filename mime : String) (size : ℕ)
  | chunkPut (ev : PutEvent)
deriving DecidableEq

/-- Environment of one run of handleUnifiedUpload's per-file task: the
canvas compression result, the outcomes of the photo POST and of the
session-URL request, and the chunk PUT oracle. -/
structure Env where
  compress : FileDesc → String
  photoOk : Bool
  photoErrMsg : String
  urlOk : Bool
  urlErrMsg : String
  chunkOracle : ℕ → ℕ → XhrOutcome

/-- maxSize = 500 * 1024 * 1024 (page.tsx lines 282 and 353). -/
def maxVideoSize : ℕ := 500 * 1024 * 1024

/-- Outcome of the video branch of handleUnifiedUpload after the session
URL was obtained (page.tsx lines 382-387), as a function of the resumable
upload's trace t: on success the task writes 100 and throws nothing; on a
thrown chunk error the error propagates to the catch block. -/
def videoOutcome (nm mime : String) (size : ℕ) (t : UploadTrace) :
    List Request × List ℤ × Option String :=
  match t.result with
  | Except.ok _ =>
    (Request.videoUrl nm mime size :: t.events.map Request.chunkPut,
     5 :: 10 :: t.progress ++ [100], none)
  | Except.error e =>
    (Request.videoUrl nm mime size :: t.events.map Request.chunkPut,
     5 :: 10 :: t.progress, some e)

/-- The try block of handleUnifiedUpload's per-file task (page.tsx lines
318-388): the requests it issues in order, the progress values it writes
after the initial 0, and the error it throws, if any. -/
def tryBody (f : FileDesc) (env : Env) :
    List Request × List ℤ × Option String :=
  if startsWithB f.mime "image/" then
    if env.photoOk then
      ([Request.photoPost (env.compress f)], [10, 30, 100], none)
    else
      ([Request.photoPost (env.compress f)], [10, 30], some env.photoErrMsg)
  else if startsWithB f.mime "video/" then
    if maxVideoSize < f.file.size then
      ([], [], some "Video file must be less than 500MB")
    else if env.urlOk then
      videoOutcome f.name f.mime f.file.size
        (resumableUpload f.file env.chunkOracle)
    else
      ([Request.videoUrl f.name f.mime f.file.size], [5], some env.urlErrMsg)
  else
    ([], [], none)

/-- Observable trace of handleUnifiedUpload's per-file task: the requests
issued, the progress values written to uploadProgress[fileId] in order,
whether the fileId was added to and later removed from the uploadingFiles
list, the error that reached the catch block (if any), the error shown to
the user via setError (if any), and whether the catch block reset the
progress entry to 0. -/
structure FileTrace where
  requests : List Request
  progress : List ℤ
  addedToUploading : Bool
  removedFromUploading : Bool
  caught : Option String
  errorShown : Option String
  progressReset : Bool

/-- One per-file task of handleUnifiedUpload (page.tsx lines 311-411):
add the fileId to uploadingFiles and set its progress to 0, run the try
block, and in the catch block suppress CORS/chunk errors while showing any
other error and resetting the progress to 0; the finally block always
removes the fileId from uploadingFiles. -/
def processFile (f : FileDesc) (env : Env) : FileTrace :=
  let r := tryBody f env
  match r.2.2 with
  | none =>
    { requests := r.1, progress := 0 :: r.2.1
      addedToUploading := true, removedFromUploading := true
      caught := none, errorShown := none, progressReset := false }
  | some msg =>
    if suppressedError msg then
      { requests := r.1, progress := 0 :: r.2.1
        addedToUploading := true, removedFromUploading := true
        caught := some msg, errorShown := none, progressReset := false }
    else
      { requests := r.1, progress := (0 :: r.2.1) ++ [0]
        addedToUploading := true, removedFromUploading := true
        caught := some msg
        errorShown := some ("Failed to upload " ++ f.name ++ ": " ++ msg)
        progressReset := true }

/-- Outcome of handleVideoFileSelect (page.tsx lines 272-292): either an
error message is set and the file is not selected, or the file is
selected. -/
inductive SelectOutcome where
  | errMsg (msg : String)
  | selected
deriving DecidableEq

/-- handleVideoFileSelect's validation (page.tsx lines 272-292). -/
def handleVideoFileSelect (f : FileDesc) : SelectOutcome :=
  if !startsWithB f.mime "video/" then SelectOutcome.errMsg "Please select a video file"
  else if maxVideoSize < f.file.size then
    SelectOutcome.errMsg "File size must be less than 500MB"
  else SelectOutcome.selected

/-- compressImage's dimension and quality computation (page.tsx lines
112-139), at the call-site defaults maxWidth = 1920 and quality = 0.8:
returns (output width, output height, JPEG quality). -/
def compressImage (w h : ℚ) : ℚ × ℚ × ℚ :=
  if 1920 < w then (1920, h * 1920 / w, 8/10) else (w, h, 8/10)

/-! ### Arithmetic facts about the chunk decomposition -/

theorem chunkSize_eq : chunkSize = 262144 := by norm_num [chunkSize]

theorem totalChunks_eq (n : ℕ) : totalChunks n = (n + 262143) / 262144 := by
  norm_num [totalChunks, chunkSize]

theorem le_totalChunks_mul (n : ℕ) : n ≤ totalChunks n * chunkSize := by
  rw [totalChunks_eq, chunkSize_eq]; omega

theorem totalChunks_mul_le (n : ℕ) : totalChunks n * chunkSize ≤ n + chunkSize - 1 := by
  rw [totalChunks_eq, chunkSize_eq]; omega

theorem mul_chunkSize_lt {n i : ℕ} (h : i < totalChunks n) : i * chunkSize < n := by
  rw [totalChunks_eq] at h; rw [chunkSize_eq]; omega

theorem totalChunks_pos {n : ℕ} (h : 0 < n) : 0 < totalChunks n := by
  rw [totalChunks_eq]; omega

theorem bytes_length (f : JsFile) : f.bytes.length = f.size := by
  simp [JsFile.bytes]

theorem take_add' {α : Type} (l : List α) (m k : ℕ) :
    l.take (m + k) = l.take m ++ (l.drop m).take k := by
  have h1 : l.take m = (l.take (m + k)).take m := by
    rw [List.take_take]; congr 1; omega
  rw [List.take_drop, h1, List.take_append_drop]

theorem join_map_chunkOf (f : JsFile) :
    ∀ k, ((List.range k).map (chunkOf f)).flatten = f.bytes.take (k * chunkSize) := by
  intro k
  induction k with
  | zero => simp
  | succ k ih =>
    rw [List.range_succ, List.map_append, List.flatten_append, ih]
    simp only [List.map_cons, List.map_nil, List.flatten_cons, List.flatten_nil,
      List.append_nil]
    rw [chunkOf, JsFile.slice,
      ← take_add' f.bytes (k * chunkSize)
          (min ((k + 1) * chunkSize) f.size - k * chunkSize)]
    rw [List.take_eq_take, bytes_length, chunkSize_eq]
    omega

/-- Helper: the ceiling characterisation of totalChunks. -/
theorem totalChunks_cast_eq_ceil (n : ℕ) :
    (totalChunks n : ℤ) = ⌈(n : ℚ) / 262144⌉ := by
  symm
  rw [Int.ceil_eq_iff]
  have h1 : n ≤ totalChunks n * 262144 := by
    have := le_totalChunks_mul n; rwa [chunkSize_eq] at this
  have h2 : totalChunks n * 262144 ≤ n + 262143 := by
    have := totalChunks_mul_le n; rwa [chunkSize_eq] at this
  have h1q : (n : ℚ) ≤ (totalChunks n : ℚ) * 262144 := by exact_mod_cast h1
  have h2q : ((totalChunks n : ℚ)) * 262144 ≤ (n : ℚ) + 262143 := by
    exact_mod_cast h2
  constructor
  · push_cast
    exact (lt_div_iff₀ (by norm_num)).2 (by nlinarith)
  · push_cast
    exact (div_le_iff₀ (by norm_num)).2 (by nlinarith)

/-- C1: resumableUpload splits a file of size n > 0 into
totalChunks = ceil(n / 262144) chunks of chunk size 262144; chunk i is
exactly the byte range [i*262144, min((i+1)*262144, n)) of the file; the
chunks are contiguous and non-overlapping (chunk i ends exactly where
chunk i+1 starts) and concatenate in index order to the original file. -/
theorem resumableUpload_chunking (f : JsFile) (h : 0 < f.size) :
    (totalChunks f.size : ℤ) = ⌈(f.size : ℚ) / 262144⌉
    ∧ chunkSize = 262144
    ∧ (∀ i, i < totalChunks f.size →
        chunkOf f i = f.slice (i * chunkSize) (min ((i + 1) * chunkSize) f.size)
        ∧ (chunkOf f i).length = min ((i + 1) * chunkSize) f.size - i * chunkSize)
    ∧ (∀ i, i + 1 < totalChunks f.size →
        min ((i + 1) * chunkSize) f.size = (i + 1) * chunkSize)
    ∧ ((List.range (totalChunks f.size)).map (chunkOf f)).flatten = f.bytes := by
  refine ⟨totalChunks_cast_eq_ceil f.size, chunkSize_eq, ?_, ?_, ?_⟩
  · intro i hi
    refine ⟨rfl, ?_⟩
    have hs : i * chunkSize < f.size := mul_chunkSize_lt hi
    rw [chunkOf, JsFile.slice, List.length_take, List.length_drop, bytes_length]
    omega
  · intro i hi
    have : (i + 1) * chunkSize < f.size := mul_chunkSize_lt hi
    omega
  · rw [join_map_chunkOf]
    exact List.take_of_length_le (by rw [bytes_length]; exact le_totalChunks_mul f.size)

/-- Witness for C1 at a concrete 3-byte file. -/
theorem resumableUpload_chunking_witness :
    0 < (JsFile.mk 3 (fun _ => 7)).size
    ∧ ((List.range (totalChunks (JsFile.mk 3 (fun _ => 7)).size)).map
        (chunkOf (JsFile.mk 3 (fun _ => 7)))).flatten = (JsFile.mk 3 (fun _ => 7)).bytes :=
  ⟨by decide, (resumableUpload_chunking _ (by decide)).2.2.2.2⟩

/-! ### Structural lemmas about the chunk loop -/

@[simp] theorem chunkEvent_chunkIndex (f : JsFile) (i : ℕ) :
    (chunkEvent f i).chunkIndex = i := rfl

theorem processChunks_result (f : JsFile) (oracle : ℕ → ℕ → XhrOutcome)
    (l : List ℕ) :
    (processChunks f oracle l).result =
      match l.dropWhile (chunkSucceeds oracle) with
      | [] => Except.ok ()
      | i :: _ => Except.error (chunkFailMsg i (totalChunks f.size)) := by
  induction l with
  | nil => rfl
  | cons i rest ih =>
    by_cases h0 : uploadChunk (oracle i 0) = true
    · have hs : chunkSucceeds oracle i = true := by simp [chunkSucceeds, h0]
      simp [processChunks, h0, List.dropWhile_cons, hs, ih]
    · by_cases h1 : uploadChunk (oracle i 1) = true
      · have hs : chunkSucceeds oracle i = true := by simp [chunkSucceeds, h1]
        simp [processChunks, h0, h1, List.dropWhile_cons, hs, ih]
      · have hs : chunkSucceeds oracle i = false := by
          simp [chunkSucceeds, h0, h1]
        simp [processChunks, h0, h1, List.dropWhile_cons, hs]

theorem processChunks_progress_all (f : JsFile) (oracle : ℕ → ℕ → XhrOutcome)
    (l : List ℕ) (hall : ∀ i ∈ l, chunkSucceeds oracle i = true) :
    (processChunks f oracle l).progress = l.map (fun i => progressAfter f.size i) := by
  induction l with
  | nil => rfl
  | cons i rest ih =>
    have hi := hall i (List.mem_cons_self i rest)
    have ihr := ih (fun j hj => hall j (List.mem_cons_of_mem _ hj))
    by_cases h0 : uploadChunk (oracle i 0) = true
    · simp [processChunks, h0, ihr]
    · have h1 : uploadChunk (oracle i 1) = true := by
        rcases Bool.or_eq_true_iff.1 hi with h | h
        · exact absurd h h0
        · exact h
      simp [processChunks, h0, h1, ihr]

theorem processChunks_mem (f : JsFile) (oracle : ℕ → ℕ → XhrOutcome) :
    ∀ l, ∀ ev ∈ (processChunks f oracle l).events,
      ev.chunkIndex ∈ l ∧ ev = chunkEvent f ev.chunkIndex := by
  intro l
  induction l with
  | nil => intro ev hev; simp [processChunks] at hev
  | cons i rest ih =>
    intro ev hev
    by_cases h0 : uploadChunk (oracle i 0) = true
    · simp only [processChunks, h0, if_true, List.mem_cons] at hev
      rcases hev with rfl | hev
      · exact ⟨by simp, by simp⟩
      · rcases ih ev hev with ⟨hm, he⟩
        exact ⟨List.mem_cons_of_mem _ hm, he⟩
    · by_cases h1 : uploadChunk (oracle i 1) = true
      · simp only [processChunks, h0, h1, if_false, if_true, Bool.false_eq_true,
          List.mem_cons] at hev
        rcases hev with rfl | rfl | hev
        · exact ⟨by simp, by simp⟩
        · exact ⟨by simp, by simp⟩
        · rcases ih ev hev with ⟨hm, he⟩
          exact ⟨List.mem_cons_of_mem _ hm, he⟩
      · simp [processChunks, h0, h1] at hev
        subst hev
        exact ⟨by simp, by simp⟩

theorem processChunks_prev (f : JsFile) (oracle : ℕ → ℕ → XhrOutcome) :
    ∀ l, List.Pairwise (· < ·) l →
      ∀ ev ∈ (processChunks f oracle l).events, ∀ j ∈ l, j < ev.chunkIndex →
        chunkSucceeds oracle j = true := by
  intro l
  induction l with
  | nil => intro _ ev hev; simp [processChunks] at hev
  | cons i rest ih =>
    intro hp ev hev j hj hlt
    rw [List.pairwise_cons] at hp
    obtain ⟨hall, hp'⟩ := hp
    have hofi : ev.chunkIndex = i → chunkSucceeds oracle j = true := by
      intro hidx
      rw [hidx] at hlt
      rcases List.mem_cons.1 hj with rfl | hjr
      · omega
      · exact absurd hlt (by have := hall j hjr; omega)
    by_cases h0 : uploadChunk (oracle i 0) = true
    · simp only [processChunks, h0, if_true, List.mem_cons] at hev
      rcases hev with rfl | hev
      · exact hofi (by simp)
      · rcases List.mem_cons.1 hj with rfl | hjr
        · simp [chunkSucceeds, h0]
        · exact ih hp' ev hev j hjr hlt
    · by_cases h1 : uploadChunk (oracle i 1) = true
      · simp only [processChunks, h0, h1, if_false, if_true, Bool.false_eq_true,
          List.mem_cons] at hev
        rcases hev with rfl | rfl | hev
        · exact hofi (by simp)
        · exact hofi (by simp)
        · rcases List.mem_cons.1 hj with rfl | hjr
          · simp [chunkSucceeds, h1]
          · exact ih hp' ev hev j hjr hlt
      · simp [processChunks, h0, h1] at hev
        subst hev
        exact hofi (by simp)

theorem processChunks_sorted (f : JsFile) (oracle : ℕ → ℕ → XhrOutcome) :
    ∀ l, List.Pairwise (· < ·) l →
      List.Pairwise (· ≤ ·)
        ((processChunks f oracle l).events.map (fun e => e.chunkIndex)) := by
  intro l
  induction l with
  | nil => intro _; simp [processChunks]
  | cons i rest ih =>
    intro hp
    rw [List.pairwise_cons] at hp
    obtain ⟨hall, hp'⟩ := hp
    have hrest : ∀ x ∈ (processChunks f oracle rest).events.map (fun e => e.chunkIndex),
        i ≤ x := by
      intro x hx
      obtain ⟨ev, hev, rfl⟩ := List.mem_map.1 hx
      exact le_of_lt (hall _ (processChunks_mem f oracle rest ev hev).1)
    by_cases h0 : uploadChunk (oracle i 0) = true
    · simp only [processChunks, h0, if_true, List.map_cons]
      rw [List.pairwise_cons]
      exact ⟨by simpa using hrest, ih hp'⟩
    · by_cases h1 : uploadChunk (oracle i 1) = true
      · simp only [processChunks, h0, h1, if_false, if_true, Bool.false_eq_true,
          List.map_cons]
        rw [List.pairwise_cons, List.pairwise_cons]
        refine ⟨?_, by simpa using hrest, ih hp'⟩
        intro x hx
        simp only [chunkEvent_chunkIndex, List.mem_cons] at hx
        rcases hx with rfl | hx
        · exact le_refl _
        · exact hrest x (by simpa using hx)
      · simp [processChunks, h0, h1]

theorem processChunks_filter (f : JsFile) (oracle : ℕ → ℕ → XhrOutcome) :
    ∀ l, List.Pairwise (· < ·) l →
      ∀ i ∈ l, (∀ j ∈ l, j < i → chunkSucceeds oracle j = true) →
        (processChunks f oracle l).events.filter (fun e => e.chunkIndex == i) =
          attemptEvents f oracle i := by
  intro l
  induction l with
  | nil => intro _ i hi; simp at hi
  | cons k rest ih =>
    intro hp i hi hprev
    rw [List.pairwise_cons] at hp
    obtain ⟨hall, hp'⟩ := hp
    rcases List.mem_cons.1 hi with rfl | hir
    · have hrest0 :
          (processChunks f oracle rest).events.filter (fun e => e.chunkIndex == i) = [] := by
        rw [List.filter_eq_nil_iff]
        intro ev hev
        have hlt := hall _ (processChunks_mem f oracle rest ev hev).1
        simp only [beq_iff_eq]
        omega
      by_cases h0 : uploadChunk (oracle i 0) = true
      · simp [processChunks, h0, attemptEvents, List.filter_cons, hrest0]
      · by_cases h1 : uploadChunk (oracle i 1) = true
        · simp [processChunks, h0, h1, attemptEvents, List.filter_cons, hrest0]
        · simp [processChunks, h0, h1, attemptEvents, List.filter_cons]
    · have hk : chunkSucceeds oracle k = true :=
        hprev k (List.mem_cons_self k rest) (hall i hir)
      have hkne : ¬ k = i := by
        have := hall i hir; omega
      have hih := ih hp' i hir
        (fun j hj hji => hprev j (List.mem_cons_of_mem _ hj) hji)
      by_cases h0 : uploadChunk (oracle k 0) = true
      · simp [processChunks, h0, List.filter_cons, hkne, hih]
      · have h1 : uploadChunk (oracle k 1) = true := by
          rcases Bool.or_eq_true_iff.1 hk with h | h
          · exact absurd h h0
          · exact h
        simp [processChunks, h0, h1, List.filter_cons, hkne, hih]

theorem dropWhile_range' (p : ℕ → Bool) (i : ℕ) :
    ∀ n s, (∀ j, s ≤ j → j < i → p j = true) → p i = false → s ≤ i →
      i < s + n →
      List.dropWhile p (List.range' s n) = List.range' i (s + n - i) := by
  intro n
  induction n with
  | zero => intro s _ _ _ h4; omega
  | succ n ih =>
    intro s hall hpi hsi hlt
    rw [List.range'_succ]
    rcases eq_or_lt_of_le hsi with rfl | hlt2
    · rw [List.dropWhile_cons_of_neg (by simp [hpi])]
      have hn : s + (n + 1) - s = n + 1 := by omega
      rw [hn, List.range'_succ]
    · have hps : p s = true := hall s le_rfl hlt2
      rw [List.dropWhile_cons_of_pos hps]
      have := ih (s + 1) (fun j hj hji => hall j (by omega) hji) hpi
        (by omega) (by omega)
      rw [this]
      congr 1
      omega

theorem dropWhile_range (p : ℕ → Bool) (i n : ℕ)
    (hall : ∀ j < i, p j = true) (hpi : p i = false) (hin : i < n) :
    List.dropWhile p (List.range n) = List.range' i (n - i) := by
  rw [List.range_eq_range']
  have := dropWhile_range' p i n 0 (fun j _ hj => hall j hj) hpi (Nat.zero_le _)
    (by omega)
  simpa using this

/-- C2: within one file's resumable upload the chunk PUTs are issued in
non-decreasing chunk-index order; the PUT for chunk j+1 is only ever issued
after chunk j has completed successfully (first attempt or single retry);
and once the first chunk that definitively fails is reached, no PUT with a
higher chunk index is ever issued and resumableUpload throws. -/
theorem resumableUpload_sequential (f : JsFile) (oracle : ℕ → ℕ → XhrOutcome) :
    List.Pairwise (· ≤ ·)
      (((resumableUpload f oracle).events).map (fun e => e.chunkIndex))
    ∧ (∀ ev ∈ (resumableUpload f oracle).events, ∀ j, ev.chunkIndex = j + 1 →
        chunkSucceeds oracle j = true)
    ∧ (∀ i, i < totalChunks f.size → chunkSucceeds oracle i = false →
        (∀ j < i, chunkSucceeds oracle j = true) →
        (∀ ev ∈ (resumableUpload f oracle).events, ev.chunkIndex ≤ i)
        ∧ (resumableUpload f oracle).result =
            Except.error (chunkFailMsg i (totalChunks f.size))) := by
  refine ⟨?_, ?_, ?_⟩
  · exact processChunks_sorted f oracle _ (List.pairwise_lt_range _)
  · intro ev hev j hj
    have hmem := (processChunks_mem f oracle _ ev hev).1
    have hjmem : j ∈ List.range (totalChunks f.size) := by
      rw [List.mem_range] at *
      omega
    exact processChunks_prev f oracle _ (List.pairwise_lt_range _) ev hev j
      hjmem (by omega)
  · intro i hi hfail hprev
    constructor
    · intro ev hev
      by_contra hgt
      push_neg at hgt
      have hjm : i ∈ List.range (totalChunks f.size) := List.mem_range.2 hi
      have := processChunks_prev f oracle _ (List.pairwise_lt_range _) ev hev i
        hjm hgt
      rw [hfail] at this
      exact absurd this (by simp)
    · show (processChunks f oracle (List.range (totalChunks f.size))).result = _
      have hres := processChunks_result f oracle (List.range (totalChunks f.size))
      rw [dropWhile_range (chunkSucceeds oracle) i _ hprev hfail hi] at hres
      obtain ⟨k, hk⟩ : ∃ k, totalChunks f.size - i = k + 1 :=
        ⟨totalChunks f.size - i - 1, by omega⟩
      rw [hk, List.range'_succ] at hres
      exact hres

/-- Witness for C2 at a concrete two-chunk file (size 262145) whose second
chunk fails both attempts. -/
theorem resumableUpload_sequential_witness :
    (1 < totalChunks (JsFile.mk 262145 (fun _ => 0)).size
      ∧ chunkSucceeds
          (fun i _ => if i = 1 then XhrOutcome.load 500 else XhrOutcome.load 308)
          1 = false
      ∧ (∀ j < 1, chunkSucceeds
          (fun i _ => if i = 1 then XhrOutcome.load 500 else XhrOutcome.load 308)
          j = true))
    ∧ ((∀ ev ∈ (resumableUpload (JsFile.mk 262145 (fun _ => 0))
          (fun i _ => if i = 1 then XhrOutcome.load 500 else XhrOutcome.load 308)).events,
          ev.chunkIndex ≤ 1)
        ∧ (resumableUpload (JsFile.mk 262145 (fun _ => 0))
            (fun i _ => if i = 1 then XhrOutcome.load 500 else XhrOutcome.load 308)).result =
          Except.error (chunkFailMsg 1
            (totalChunks (JsFile.mk 262145 (fun _ => 0)).size))) :=
  ⟨⟨by decide, by decide, by decide⟩,
    (resumableUpload_sequential _ _).2.2 1 (by decide) (by decide) (by decide)⟩

@[simp] theorem chunkEvent_first (f : JsFile) (i : ℕ) :
    (chunkEvent f i).first = i * chunkSize := rfl

@[simp] theorem chunkEvent_endIncl (f : JsFile) (i : ℕ) :
    (chunkEvent f i).endIncl = min ((i + 1) * chunkSize) f.size - 1 := rfl

@[simp] theorem chunkEvent_totalSize (f : JsFile) (i : ℕ) :
    (chunkEvent f i).totalSize = f.size := rfl

@[simp] theorem chunkEvent_body (f : JsFile) (i : ℕ) :
    (chunkEvent f i).body =
      f.slice (i * chunkSize) (min ((i + 1) * chunkSize) f.size) := rfl

theorem chunkEvent_contentRange (f : JsFile) (i : ℕ) :
    (chunkEvent f i).contentRange =
      "bytes " ++ toString (i * chunkSize) ++ "-"
        ++ toString (min ((i + 1) * chunkSize) f.size - 1) ++ "/"
        ++ toString f.size := rfl

theorem resumableUpload_events_def (f : JsFile) (oracle : ℕ → ℕ → XhrOutcome) :
    (resumableUpload f oracle).events =
      (processChunks f oracle (List.range (totalChunks f.size))).events := rfl

theorem resumableUpload_result_def (f : JsFile) (oracle : ℕ → ℕ → XhrOutcome) :
    (resumableUpload f oracle).result =
      (processChunks f oracle (List.range (totalChunks f.size))).result := rfl

/-- Helper: the first definitively failing chunk determines the thrown error. -/
theorem resumableUpload_error_of_firstFail (f : JsFile)
    (oracle : ℕ → ℕ → XhrOutcome) (i : ℕ) (hi : i < totalChunks f.size)
    (hfail : chunkSucceeds oracle i = false)
    (hprev : ∀ j < i, chunkSucceeds oracle j = true) :
    (resumableUpload f oracle).result =
      Except.error (chunkFailMsg i (totalChunks f.size)) := by
  rw [resumableUpload_result_def]
  have hres := processChunks_result f oracle (List.range (totalChunks f.size))
  rw [dropWhile_range (chunkSucceeds oracle) i _ hprev hfail hi] at hres
  obtain ⟨k, hk⟩ : ∃ k, totalChunks f.size - i = k + 1 :=
    ⟨totalChunks f.size - i - 1, by omega⟩
  rw [hk, List.range'_succ] at hres
  exact hres

/-- C3: when a chunk's first attempt fails, resumableUpload retries exactly
that chunk exactly once — the trace carries exactly two PUTs for its index
and they are identical (same byte range, same Content-Range, same body);
if the retry also fails, the thrown error message names the chunk number
out of the total; and the call succeeds iff every chunk succeeded on its
first attempt or its single retry. -/
theorem resumableUpload_retry_once (f : JsFile) (oracle : ℕ → ℕ → XhrOutcome) :
    (∀ i, i < totalChunks f.size →
      (∀ j < i, chunkSucceeds oracle j = true) →
      (uploadChunk (oracle i 0) = true →
        (resumableUpload f oracle).events.filter (fun e => e.chunkIndex == i)
          = [chunkEvent f i])
      ∧ (uploadChunk (oracle i 0) = false →
        (resumableUpload f oracle).events.filter (fun e => e.chunkIndex == i)
          = [chunkEvent f i, chunkEvent f i])
      ∧ (chunkSucceeds oracle i = false →
        (resumableUpload f oracle).result =
          Except.error ("Failed to upload chunk " ++ toString (i + 1) ++ "/"
            ++ toString (totalChunks f.size) ++ " after retry")))
    ∧ ((resumableUpload f oracle).result = Except.ok () ↔
        ∀ i < totalChunks f.size, chunkSucceeds oracle i = true) := by
  constructor
  · intro i hi hprev
    have hfilter := processChunks_filter f oracle
      (List.range (totalChunks f.size)) (List.pairwise_lt_range _) i
      (List.mem_range.2 hi)
      (fun j hj hji => hprev j hji)
    rw [resumableUpload_events_def]
    refine ⟨?_, ?_, ?_⟩
    · intro h0
      rw [hfilter, attemptEvents, if_pos h0]
    · intro h0
      rw [hfilter, attemptEvents, if_neg (by simp [h0])]
    · intro hfail
      exact resumableUpload_error_of_firstFail f oracle i hi hfail hprev
  · have hres := processChunks_result f oracle (List.range (totalChunks f.size))
    constructor
    · intro hok i hi
      by_contra hfail
      rw [Bool.not_eq_true] at hfail
      have hex : ∃ k, k < totalChunks f.size ∧ chunkSucceeds oracle k = false :=
        ⟨i, hi, hfail⟩
      have hspec := Nat.find_spec hex
      have hprev : ∀ j < Nat.find hex, chunkSucceeds oracle j = true := by
        intro j hj
        by_contra hjf
        rw [Bool.not_eq_true] at hjf
        exact (Nat.find_min hex hj) ⟨by omega, hjf⟩
      have herr := resumableUpload_error_of_firstFail f oracle (Nat.find hex)
        hspec.1 hspec.2 hprev
      rw [hok] at herr
      exact Except.noConfusion herr
    · intro hall
      have hnil : List.dropWhile (chunkSucceeds oracle)
          (List.range (totalChunks f.size)) = [] :=
        List.dropWhile_eq_nil_iff.2 (fun x hx => hall x (List.mem_range.1 hx))
      rw [resumableUpload_result_def, hres, hnil]

/-- Witness for C3 at a concrete one-chunk file whose single chunk fails its
first attempt and succeeds on the retry. -/
theorem resumableUpload_retry_once_witness :
    (0 < totalChunks (JsFile.mk 3 (fun _ => 7)).size
      ∧ (∀ j < 0, chunkSucceeds
          (fun (_ a : ℕ) => if a = 0 then XhrOutcome.load 500 else XhrOutcome.load 200)
          j = true)
      ∧ uploadChunk
          ((fun (_ a : ℕ) => if a = 0 then XhrOutcome.load 500 else XhrOutcome.load 200) 0 0)
          = false)
    ∧ (resumableUpload (JsFile.mk 3 (fun _ => 7))
        (fun (_ a : ℕ) => if a = 0 then XhrOutcome.load 500 else XhrOutcome.load 200)).events.filter
          (fun e => e.chunkIndex == 0)
        = [chunkEvent (JsFile.mk 3 (fun _ => 7)) 0,
           chunkEvent (JsFile.mk 3 (fun _ => 7)) 0] := by
  refine ⟨⟨?_, ?_, ?_⟩, ?_⟩
  · decide
  · decide
  · decide
  · exact ((resumableUpload_retry_once (JsFile.mk 3 (fun _ => 7))
      (fun (_ a : ℕ) => if a = 0 then XhrOutcome.load 500 else XhrOutcome.load 200)).1
      0 (by decide) (by decide)).2.1 (by decide)

/-- C4: uploadChunk resolves true exactly on HTTP status 308 or a status in
[200, 300); it resolves false on every other status, on a network error and
on a timeout; it never rejects (it is a total function into Bool); and each
chunk request carries a 30-second (30000 ms) timeout. -/
theorem uploadChunk_status :
    (∀ s : ℕ, uploadChunk (XhrOutcome.load s) = true ↔
      (s = 308 ∨ (200 ≤ s ∧ s < 300)))
    ∧ uploadChunk XhrOutcome.netError = false
    ∧ uploadChunk XhrOutcome.timeout = false
    ∧ chunkTimeoutMs = 30000 := by
  refine ⟨?_, rfl, rfl, rfl⟩
  intro s
  simp [uploadChunk]

/-- C5: every chunk PUT for a file of size n carries
Content-Range: bytes s-e/n with s = i*262144 and
e = min((i+1)*262144, n) - 1 (the inclusive index of the chunk's last
byte), and e - s + 1 equals the number of bytes in the request body. -/
theorem uploadChunk_contentRange (f : JsFile) (oracle : ℕ → ℕ → XhrOutcome)
    (ev : PutEvent) (hev : ev ∈ (resumableUpload f oracle).events) :
    ∃ i < totalChunks f.size,
      ev.first = i * chunkSize
      ∧ ev.endIncl = min ((i + 1) * chunkSize) f.size - 1
      ∧ ev.totalSize = f.size
      ∧ ev.contentRange =
          "bytes " ++ toString (i * chunkSize) ++ "-"
            ++ toString (min ((i + 1) * chunkSize) f.size - 1) ++ "/"
            ++ toString f.size
      ∧ ev.body.length = ev.endIncl - ev.first + 1 := by
  rw [resumableUpload_events_def] at hev
  obtain ⟨hm, he⟩ := processChunks_mem f oracle _ ev hev
  obtain ⟨i, rfl⟩ : ∃ i, ev = chunkEvent f i := ⟨ev.chunkIndex, he⟩
  rw [chunkEvent_chunkIndex] at hm
  have hi : i < totalChunks f.size := List.mem_range.1 hm
  have hlt : i * chunkSize < f.size := mul_chunkSize_lt hi
  refine ⟨i, hi, rfl, rfl, rfl, chunkEvent_contentRange f i, ?_⟩
  rw [chunkEvent_body, chunkEvent_endIncl, chunkEvent_first, JsFile.slice,
    List.length_take, List.length_drop, bytes_length]
  have hcs : 0 < chunkSize := by rw [chunkSize_eq]; omega
  have hmul : (i + 1) * chunkSize = i * chunkSize + chunkSize := by ring
  omega

/-- Witness for C5 at a concrete one-chunk file. -/
theorem uploadChunk_contentRange_witness :
    chunkEvent (JsFile.mk 2 (fun _ => 7)) 0 ∈
      (resumableUpload (JsFile.mk 2 (fun _ => 7))
        (fun (_ _ : ℕ) => XhrOutcome.load 308)).events
    ∧ ∃ i < totalChunks (JsFile.mk 2 (fun _ => 7)).size,
        (chunkEvent (JsFile.mk 2 (fun _ => 7)) 0).first = i * chunkSize
        ∧ (chunkEvent (JsFile.mk 2 (fun _ => 7)) 0).endIncl =
            min ((i + 1) * chunkSize) (JsFile.mk 2 (fun _ => 7)).size - 1
        ∧ (chunkEvent (JsFile.mk 2 (fun _ => 7)) 0).totalSize =
            (JsFile.mk 2 (fun _ => 7)).size
        ∧ (chunkEvent (JsFile.mk 2 (fun _ => 7)) 0).contentRange =
            "bytes " ++ toString (i * chunkSize) ++ "-"
              ++ toString (min ((i + 1) * chunkSize)
                    (JsFile.mk 2 (fun _ => 7)).size - 1) ++ "/"
              ++ toString (JsFile.mk 2 (fun _ => 7)).size
        ∧ (chunkEvent (JsFile.mk 2 (fun _ => 7)) 0).body.length =
            (chunkEvent (JsFile.mk 2 (fun _ => 7)) 0).endIncl
              - (chunkEvent (JsFile.mk 2 (fun _ => 7)) 0).first + 1 := by
  refine ⟨?_, ?_⟩
  · decide
  · exact uploadChunk_contentRange (JsFile.mk 2 (fun _ => 7))
      (fun (_ _ : ℕ) => XhrOutcome.load 308)
      (chunkEvent (JsFile.mk 2 (fun _ => 7)) 0) (by decide)

theorem resumableUpload_progress_def (f : JsFile) (oracle : ℕ → ℕ → XhrOutcome) :
    (resumableUpload f oracle).progress =
      (processChunks f oracle (List.range (totalChunks f.size))).progress := rfl

theorem progressAfter_mono (n : ℕ) (hn : 0 < n) {i j : ℕ} (hij : i ≤ j) :
    progressAfter n i ≤ progressAfter n j := by
  unfold progressAfter jsRound
  have hnq : (0:ℚ) < n := by exact_mod_cast hn
  have hmin : (min ((i + 1) * chunkSize) n : ℚ) ≤
      (min ((j + 1) * chunkSize) n : ℚ) := by
    have h := min_le_min (Nat.mul_le_mul_right chunkSize
      (by omega : i + 1 ≤ j + 1)) (le_refl n)
    exact_mod_cast h
  apply add_le_add_left
  apply Int.floor_le_floor
  apply add_le_add_right
  apply mul_le_mul_of_nonneg_right _ (by norm_num : (0:ℚ) ≤ 85)
  exact (div_le_div_iff_of_pos_right hnq).2 hmin

theorem progressAfter_bounds (n : ℕ) (hn : 0 < n) (i : ℕ) :
    10 ≤ progressAfter n i ∧ progressAfter n i ≤ 95 := by
  unfold progressAfter jsRound
  have hnq : (0:ℚ) < n := by exact_mod_cast hn
  have h0 : (0:ℚ) ≤ (min ((i + 1) * chunkSize) n : ℚ) := by positivity
  have h1 : (min ((i + 1) * chunkSize) n : ℚ) ≤ n := by
    exact_mod_cast min_le_right ((i + 1) * chunkSize) n
  have hq0 : (0:ℚ) ≤ (min ((i + 1) * chunkSize) n : ℚ) / n * 85 := by positivity
  have hq1 : (min ((i + 1) * chunkSize) n : ℚ) / n * 85 ≤ 85 := by
    have hdiv : (min ((i + 1) * chunkSize) n : ℚ) / n ≤ 1 := by
      rw [div_le_one hnq]; exact h1
    nlinarith
  constructor
  · have hf : (0:ℤ) ≤ ⌊(min ((i + 1) * chunkSize) n : ℚ) / n * 85 + 1/2⌋ := by
      apply Int.le_floor.2
      push_cast
      linarith
    omega
  · have hf : ⌊(min ((i + 1) * chunkSize) n : ℚ) / n * 85 + 1/2⌋ < 86 := by
      apply Int.floor_lt.2
      push_cast
      linarith
    omega

theorem progressAfter_last (n : ℕ) (hn : 0 < n) :
    progressAfter n (totalChunks n - 1) = 95 := by
  have htot : 0 < totalChunks n := totalChunks_pos hn
  unfold progressAfter jsRound
  have hnq : (0:ℚ) < n := by exact_mod_cast hn
  have hcast : ((totalChunks n - 1 : ℕ) : ℚ) + 1 = (totalChunks n : ℚ) := by
    have h1 : (totalChunks n - 1) + 1 = totalChunks n := by omega
    exact_mod_cast congrArg (Nat.cast : ℕ → ℚ) h1
  have hminq : (totalChunks n : ℚ) * chunkSize ⊓ (n:ℚ) = n := by
    apply min_eq_right
    exact_mod_cast le_totalChunks_mul n
  rw [hcast, hminq, div_self (ne_of_gt hnq), one_mul]
  have hfl : ⌊(85:ℚ) + 1/2⌋ = 85 := by
    rw [Int.floor_eq_iff]
    constructor
    · push_cast; norm_num
    · push_cast; norm_num
  rw [hfl]
  norm_num

theorem videoOutcome_requests (nm mime : String) (size : ℕ) (t : UploadTrace) :
    (videoOutcome nm mime size t).1 =
      Request.videoUrl nm mime size :: t.events.map Request.chunkPut := by
  cases h : t.result <;> simp [videoOutcome, h]

theorem videoOutcome_ok (nm mime : String) (size : ℕ) (t : UploadTrace)
    (h : t.result = Except.ok ()) :
    videoOutcome nm mime size t =
      (Request.videoUrl nm mime size :: t.events.map Request.chunkPut,
       5 :: 10 :: t.progress ++ [100], none) := by
  simp [videoOutcome, h]

theorem videoOutcome_error (nm mime : String) (size : ℕ) (t : UploadTrace)
    (e : String) (h : t.result = Except.error e) :
    videoOutcome nm mime size t =
      (Request.videoUrl nm mime size :: t.events.map Request.chunkPut,
       5 :: 10 :: t.progress, some e) := by
  simp [videoOutcome, h]

theorem tryBody_video (nm mime : String) (g : JsFile) (env : Env)
    (himg : startsWithB mime "image/" = false)
    (hvid : startsWithB mime "video/" = true)
    (hns : ¬ maxVideoSize < g.size) (hurl : env.urlOk = true) :
    tryBody (FileDesc.mk nm mime g) env =
      videoOutcome nm mime g.size (resumableUpload g env.chunkOracle) := by
  simp [tryBody, himg, hvid, hurl, hns]

theorem processFile_progress_ok (f : FileDesc) (env : Env)
    (h : (tryBody f env).2.2 = none) :
    (processFile f env).progress = 0 :: (tryBody f env).2.1 := by
  simp only [processFile]
  rw [h]

/-- C6: during a file's resumable upload, the progress written after chunk i
is 10 + round(85 * end_i / n) with end_i = min((i+1)*262144, n); this value
is non-decreasing in i, always lies in [10, 95], and equals exactly 95 after
the final chunk; handleUnifiedUpload then sets the entry to 100 when the
whole upload finishes. -/
theorem progress_model (f : JsFile) (h : 0 < f.size) :
    (∀ oracle, (∀ i ∈ List.range (totalChunks f.size),
        chunkSucceeds oracle i = true) →
      (resumableUpload f oracle).progress =
        (List.range (totalChunks f.size)).map (fun i => progressAfter f.size i))
    ∧ (∀ i, progressAfter f.size i =
        10 + jsRound (85 * (min ((i + 1) * chunkSize) f.size : ℚ) / f.size))
    ∧ (∀ i j, i ≤ j → progressAfter f.size i ≤ progressAfter f.size j)
    ∧ (∀ i, 10 ≤ progressAfter f.size i ∧ progressAfter f.size i ≤ 95)
    ∧ progressAfter f.size (totalChunks f.size - 1) = 95
    ∧ (∀ (nm mime : String) (env : Env),
        startsWithB mime "video/" = true → startsWithB mime "image/" = false →
        f.size ≤ maxVideoSize → env.urlOk = true →
        (resumableUpload f env.chunkOracle).result = Except.ok () →
        (processFile (FileDesc.mk nm mime f) env).progress.getLast? = some 100) := by
  refine ⟨?_, ?_, ?_, ?_, progressAfter_last f.size h, ?_⟩
  · intro oracle hall
    rw [resumableUpload_progress_def]
    exact processChunks_progress_all f oracle _ hall
  · intro i
    rw [progressAfter]
    congr 1
    rw [jsRound, jsRound]
    congr 1
    ring_nf
  · intro i j hij
    exact progressAfter_mono f.size h hij
  · intro i
    exact progressAfter_bounds f.size h i
  · intro nm mime env hvid himg hsz hurl hok
    have hns : ¬ maxVideoSize < f.size := by omega
    have ht := tryBody_video nm mime f env himg hvid hns hurl
    have hto := videoOutcome_ok nm mime f.size
      (resumableUpload f env.chunkOracle) hok
    have hnone : (tryBody (FileDesc.mk nm mime f) env).2.2 = none := by
      rw [ht, hto]
    have hp : (tryBody (FileDesc.mk nm mime f) env).2.1 =
        5 :: 10 :: (resumableUpload f env.chunkOracle).progress ++ [100] := by
      rw [ht, hto]
    rw [processFile_progress_ok _ _ hnone, hp]
    rw [← List.cons_append, List.getLast?_concat]

/-- Witness for C6 at a concrete 3-byte (one-chunk) file. -/
theorem progress_model_witness :
    0 < (JsFile.mk 3 (fun _ => 9)).size
    ∧ progressAfter (JsFile.mk 3 (fun _ => 9)).size
        (totalChunks (JsFile.mk 3 (fun _ => 9)).size - 1) = 95 :=
  ⟨by decide, (progress_model (JsFile.mk 3 (fun _ => 9)) (by decide)).2.2.2.2.1⟩

/-! ### Dispatch and error handling of handleUnifiedUpload -/

theorem video_not_image {m : String} (h : startsWithB m "video/" = true) :
    startsWithB m "image/" = false := by
  unfold startsWithB at h ⊢
  have hv : "video/".toList = ['v', 'i', 'd', 'e', 'o', '/'] := rfl
  have hi : "image/".toList = ['i', 'm', 'a', 'g', 'e', '/'] := rfl
  rw [hv] at h
  rw [hi]
  cases hm : m.toList with
  | nil => rw [hm] at h; simp [isPrefixB] at h
  | cons c cs =>
    rw [hm] at h
    simp only [isPrefixB, Bool.and_eq_true, beq_iff_eq] at h
    obtain ⟨rfl, -⟩ := h
    simp [isPrefixB]

theorem processFile_requests (f : FileDesc) (env : Env) :
    (processFile f env).requests = (tryBody f env).1 := by
  simp only [processFile]
  split
  · rfl
  · split <;> rfl

theorem processFile_added (f : FileDesc) (env : Env) :
    (processFile f env).addedToUploading = true := by
  simp only [processFile]
  split
  · rfl
  · split <;> rfl

theorem processFile_removed (f : FileDesc) (env : Env) :
    (processFile f env).removedFromUploading = true := by
  simp only [processFile]
  split
  · rfl
  · split <;> rfl

/-- C7: handleUnifiedUpload dispatches each file by MIME type: an image/ file
is compressed and POSTed (one photo POST carrying the compression result, no
other request); a video/ file goes through the resumable pipeline (first the
session-URL request with the file's name, type and size, then the chunk PUTs
against that URL); a file of any other type is neither uploaded nor reported
as an error — it is added to and removed from the uploading list, its
progress entry is created at 0, and no request is sent. -/
theorem handleUnifiedUpload_dispatch (f : FileDesc) (env : Env) :
    (startsWithB f.mime "image/" = true →
      (processFile f env).requests = [Request.photoPost (env.compress f)])
    ∧ (startsWithB f.mime "video/" = true → f.file.size ≤ maxVideoSize →
        env.urlOk = true →
      (processFile f env).requests =
        Request.videoUrl f.name f.mime f.file.size
          :: (resumableUpload f.file env.chunkOracle).events.map Request.chunkPut)
    ∧ (startsWithB f.mime "image/" = false → startsWithB f.mime "video/" = false →
      (processFile f env).requests = []
      ∧ (processFile f env).addedToUploading = true
      ∧ (processFile f env).removedFromUploading = true
      ∧ (processFile f env).caught = none
      ∧ (processFile f env).errorShown = none
      ∧ (processFile f env).progress = [0]) := by
  refine ⟨?_, ?_, ?_⟩
  · intro himg
    rw [processFile_requests]
    cases hok : env.photoOk <;> simp [tryBody, himg, hok]
  · intro hvid hsz hurl
    have himg := video_not_image hvid
    have hns : ¬ maxVideoSize < f.file.size := by omega
    obtain ⟨nm, mime, g⟩ := f
    rw [processFile_requests, tryBody_video nm mime g env himg hvid hns hurl,
      videoOutcome_requests]
  · intro himg hvid
    have ht : tryBody f env = ([], [], none) := by simp [tryBody, himg, hvid]
    refine ⟨?_, processFile_added f env, processFile_removed f env, ?_, ?_, ?_⟩
    · rw [processFile_requests, ht]
    · unfold processFile
      rw [ht]
    · unfold processFile
      rw [ht]
    · unfold processFile
      rw [ht]

/-- Witness for C7 at a concrete non-image, non-video file. -/
theorem handleUnifiedUpload_dispatch_witness :
    (startsWithB "application/pdf" "image/" = false
      ∧ startsWithB "application/pdf" "video/" = false)
    ∧ ((processFile
          (FileDesc.mk "doc.pdf" "application/pdf" (JsFile.mk 4 (fun _ => 1)))
          (Env.mk (fun _ => "data") true "pe" true "ue"
            (fun (_ _ : ℕ) => XhrOutcome.load 308))).requests = []
      ∧ (processFile
          (FileDesc.mk "doc.pdf" "application/pdf" (JsFile.mk 4 (fun _ => 1)))
          (Env.mk (fun _ => "data") true "pe" true "ue"
            (fun (_ _ : ℕ) => XhrOutcome.load 308))).addedToUploading = true
      ∧ (processFile
          (FileDesc.mk "doc.pdf" "application/pdf" (JsFile.mk 4 (fun _ => 1)))
          (Env.mk (fun _ => "data") true "pe" true "ue"
            (fun (_ _ : ℕ) => XhrOutcome.load 308))).removedFromUploading = true
      ∧ (processFile
          (FileDesc.mk "doc.pdf" "application/pdf" (JsFile.mk 4 (fun _ => 1)))
          (Env.mk (fun _ => "data") true "pe" true "ue"
            (fun (_ _ : ℕ) => XhrOutcome.load 308))).caught = none
      ∧ (processFile
          (FileDesc.mk "doc.pdf" "application/pdf" (JsFile.mk 4 (fun _ => 1)))
          (Env.mk (fun _ => "data") true "pe" true "ue"
            (fun (_ _ : ℕ) => XhrOutcome.load 308))).errorShown = none
      ∧ (processFile
          (FileDesc.mk "doc.pdf" "application/pdf" (JsFile.mk 4 (fun _ => 1)))
          (Env.mk (fun _ => "data") true "pe" true "ue"
            (fun (_ _ : ℕ) => XhrOutcome.load 308))).progress = [0]) :=
  ⟨⟨by decide, by decide⟩,
    (handleUnifiedUpload_dispatch
      (FileDesc.mk "doc.pdf" "application/pdf" (JsFile.mk 4 (fun _ => 1)))
      (Env.mk (fun _ => "data") true "pe" true "ue"
        (fun (_ _ : ℕ) => XhrOutcome.load 308))).2.2 (by decide) (by decide)⟩

/-- C8: compressImage produces a JPEG at quality 0.8; if the source width w
exceeds 1920 the output is 1920 x (h * 1920 / w) (aspect ratio preserved),
otherwise the dimensions are unchanged; images are never upscaled. -/
theorem compressImage_dimensions (w hgt : ℚ) (hw : 0 < w) (hh : 0 < hgt) :
    (compressImage w hgt).2.2 = 8/10
    ∧ (1920 < w →
        (compressImage w hgt).1 = 1920
        ∧ (compressImage w hgt).2.1 = hgt * 1920 / w)
    ∧ (w ≤ 1920 →
        (compressImage w hgt).1 = w ∧ (compressImage w hgt).2.1 = hgt)
    ∧ (compressImage w hgt).2.1 / (compressImage w hgt).1 = hgt / w
    ∧ (compressImage w hgt).1 ≤ w ∧ (compressImage w hgt).2.1 ≤ hgt := by
  by_cases hcase : 1920 < w
  · rw [compressImage, if_pos hcase]
    refine ⟨rfl, fun _ => ⟨rfl, rfl⟩,
      fun hle => absurd hcase (not_lt.2 hle), ?_, ?_, ?_⟩
    · show hgt * 1920 / w / 1920 = hgt / w
      field_simp
      ring
    · show (1920 : ℚ) ≤ w
      exact le_of_lt hcase
    · show hgt * 1920 / w ≤ hgt
      rw [div_le_iff₀ (by linarith : (0:ℚ) < w)]
      nlinarith
  · push_neg at hcase
    rw [compressImage, if_neg (not_lt.2 hcase)]
    exact ⟨rfl, fun hgtw => absurd hgtw (not_lt.2 hcase),
      fun _ => ⟨rfl, rfl⟩, rfl, le_refl w, le_refl hgt⟩

/-- Witness for C8 at a concrete 3840 x 2160 image. -/
theorem compressImage_dimensions_witness :
    ((0:ℚ) < 3840 ∧ (0:ℚ) < 2160)
    ∧ ((compressImage 3840 2160).2.2 = 8/10
      ∧ (compressImage 3840 2160).2.1 / (compressImage 3840 2160).1
          = 2160 / 3840) :=
  ⟨⟨by decide, by decide⟩,
    ⟨(compressImage_dimensions 3840 2160 (by decide) (by decide)).1,
     (compressImage_dimensions 3840 2160 (by decide) (by decide)).2.2.2.1⟩⟩

theorem toList_append (s t : String) : (s ++ t).toList = s.toList ++ t.toList := by
  cases s with
  | mk a =>
    cases t with
    | mk b => rfl

theorem isPrefixB_append (pat l l2 : List Char) (h : isPrefixB pat l = true) :
    isPrefixB pat (l ++ l2) = true := by
  induction pat generalizing l with
  | nil => simp [isPrefixB]
  | cons a as ih =>
    cases l with
    | nil => simp [isPrefixB] at h
    | cons b bs =>
      simp only [isPrefixB, Bool.and_eq_true] at h ⊢
      exact ⟨h.1, ih bs h.2⟩

theorem containsB_nil (l : List Char) : containsB [] l = true := by
  induction l with
  | nil => rfl
  | cons c cs ih => simp [containsB, isPrefixB]

theorem containsB_append_left (pat l1 l2 : List Char)
    (h : containsB pat l1 = true) : containsB pat (l1 ++ l2) = true := by
  induction l1 with
  | nil =>
    have hpat : pat = [] := by
      cases pat with
      | nil => rfl
      | cons a as => simp [containsB, isPrefixB] at h
    rw [hpat, List.nil_append]
    exact containsB_nil l2
  | cons c cs ih =>
    simp only [containsB, Bool.or_eq_true] at h
    rw [List.cons_append]
    rcases h with h | h
    · simp only [containsB, Bool.or_eq_true]
      left
      rw [← List.cons_append]
      exact isPrefixB_append pat (c :: cs) l2 h
    · simp only [containsB, Bool.or_eq_true]
      right
      exact ih h

/-- The error thrown by resumableUpload always contains the word chunk. -/
theorem suppressedError_chunkFailMsg (i t : ℕ) :
    suppressedError (chunkFailMsg i t) = true := by
  have h1 : containsB "chunk".toList (chunkFailMsg i t).toList = true := by
    unfold chunkFailMsg
    rw [toList_append, toList_append, toList_append, toList_append]
    apply containsB_append_left
    apply containsB_append_left
    apply containsB_append_left
    apply containsB_append_left
    decide
  unfold suppressedError includesB
  rw [h1]
  simp

theorem processFile_suppressed (f : FileDesc) (env : Env) (msg : String)
    (hmsg : (tryBody f env).2.2 = some msg) (hs : suppressedError msg = true) :
    (processFile f env).errorShown = none
    ∧ (processFile f env).progressReset = false := by
  simp only [processFile]
  rw [hmsg]
  simp [hs]

theorem resumableUpload_error_suppressed (g : JsFile)
    (oracle : ℕ → ℕ → XhrOutcome) (m : String)
    (hres : (resumableUpload g oracle).result = Except.error m) :
    suppressedError m = true := by
  have hr := processChunks_result g oracle (List.range (totalChunks g.size))
  rw [resumableUpload_result_def] at hres
  rw [hres] at hr
  rcases hd : List.dropWhile (chunkSucceeds oracle)
      (List.range (totalChunks g.size)) with _ | ⟨i, rest⟩
  · rw [hd] at hr
    exact absurd hr (by simp)
  · rw [hd] at hr
    simp only [Except.error.injEq] at hr
    rw [hr]
    exact suppressedError_chunkFailMsg _ _

/-- C9: any per-file upload failure whose message contains CORS,
Access-Control-Allow-Origin, Chunk or chunk is silently suppressed — no
error is shown and the progress entry is not reset to 0; the error thrown
by resumableUpload after a failed retry always contains chunk, so every
definitive chunked-video upload failure is invisible to the user. -/
theorem chunk_errors_suppressed (f : FileDesc) (env : Env) (msg : String)
    (hmsg : (tryBody f env).2.2 = some msg)
    (hs : suppressedError msg = true) :
    ((processFile f env).errorShown = none
      ∧ (processFile f env).progressReset = false)
    ∧ (∀ (g : JsFile) (oracle : ℕ → ℕ → XhrOutcome) (m : String),
        (resumableUpload g oracle).result = Except.error m →
        suppressedError m = true)
    ∧ (∀ (nm mime : String) (g : JsFile) (env2 : Env) (m : String),
        startsWithB mime "video/" = true → startsWithB mime "image/" = false →
        g.size ≤ maxVideoSize → env2.urlOk = true →
        (resumableUpload g env2.chunkOracle).result = Except.error m →
        (processFile (FileDesc.mk nm mime g) env2).errorShown = none
        ∧ (processFile (FileDesc.mk nm mime g) env2).progressReset = false) := by
  refine ⟨processFile_suppressed f env msg hmsg hs,
    resumableUpload_error_suppressed, ?_⟩
  intro nm mime g env2 m hvid himg hsz hurl hres
  have hns : ¬ maxVideoSize < g.size := by omega
  have ht : (tryBody (FileDesc.mk nm mime g) env2).2.2 = some m := by
    rw [tryBody_video nm mime g env2 himg hvid hns hurl,
      videoOutcome_error nm mime g.size (resumableUpload g env2.chunkOracle)
        m hres]
  exact processFile_suppressed _ env2 m ht
    (resumableUpload_error_suppressed g env2.chunkOracle m hres)

/-- Witness for C9 at a concrete video file whose single chunk fails both
attempts. -/
theorem chunk_errors_suppressed_witness :
    ((tryBody (FileDesc.mk "v.mp4" "video/mp4" (JsFile.mk 3 (fun _ => 0)))
        (Env.mk (fun _ => "d") true "pe" true "ue"
          (fun (_ _ : ℕ) => XhrOutcome.load 500))).2.2 =
        some (chunkFailMsg 0 1)
      ∧ suppressedError (chunkFailMsg 0 1) = true)
    ∧ ((processFile (FileDesc.mk "v.mp4" "video/mp4" (JsFile.mk 3 (fun _ => 0)))
        (Env.mk (fun _ => "d") true "pe" true "ue"
          (fun (_ _ : ℕ) => XhrOutcome.load 500))).errorShown = none
      ∧ (processFile (FileDesc.mk "v.mp4" "video/mp4" (JsFile.mk 3 (fun _ => 0)))
        (Env.mk (fun _ => "d") true "pe" true "ue"
          (fun (_ _ : ℕ) => XhrOutcome.load 500))).progressReset = false) :=
  ⟨⟨by decide, by decide⟩,
    (chunk_errors_suppressed
      (FileDesc.mk "v.mp4" "video/mp4" (JsFile.mk 3 (fun _ => 0)))
      (Env.mk (fun _ => "d") true "pe" true "ue"
        (fun (_ _ : ℕ) => XhrOutcome.load 500))
      (chunkFailMsg 0 1) (by decide) (by decide)).1⟩

/-- C10: a video larger than 500 * 1024 * 1024 bytes is rejected on the
client before any network request: handleVideoFileSelect refuses it with an
error message, and handleUnifiedUpload throws
'Video file must be less than 500MB' before requesting an upload session
URL; a video of exactly 500 * 1024 * 1024 bytes passes both checks. -/
theorem video_size_limit (f : FileDesc) (env : Env) :
    (startsWithB f.mime "video/" = true → maxVideoSize < f.file.size →
      handleVideoFileSelect f =
        SelectOutcome.errMsg "File size must be less than 500MB"
      ∧ (processFile f env).requests = []
      ∧ (processFile f env).caught = some "Video file must be less than 500MB")
    ∧ (startsWithB f.mime "video/" = true → f.file.size = maxVideoSize →
      handleVideoFileSelect f = SelectOutcome.selected
      ∧ (env.urlOk = true →
          (processFile f env).requests.head? =
            some (Request.videoUrl f.name f.mime f.file.size))) := by
  constructor
  · intro hvid hsz
    have himg := video_not_image hvid
    have ht : tryBody f env =
        ([], [], some "Video file must be less than 500MB") := by
      simp [tryBody, himg, hvid, hsz]
    have hsup : suppressedError "Video file must be less than 500MB" = false := by
      decide
    refine ⟨?_, ?_, ?_⟩
    · unfold handleVideoFileSelect
      rw [hvid]
      simp [hsz]
    · rw [processFile_requests, ht]
    · simp only [processFile]
      rw [ht]
      simp [hsup]
  · intro hvid hsz
    have himg := video_not_image hvid
    have hns : ¬ maxVideoSize < f.file.size := by omega
    constructor
    · unfold handleVideoFileSelect
      rw [hvid]
      simp [hns]
    · intro hurl
      obtain ⟨nm, mime, g⟩ := f
      rw [processFile_requests, tryBody_video nm mime g env himg hvid hns hurl,
        videoOutcome_requests]
      rfl

/-- Witness for C10: a 500MB + 1 byte video is rejected, a video of exactly
500MB is accepted. -/
theorem video_size_limit_witness :
    (startsWithB "video/mp4" "video/" = true
      ∧ maxVideoSize < (JsFile.mk 524288001 (fun _ => 0)).size
      ∧ (JsFile.mk 524288000 (fun _ => 0)).size = maxVideoSize)
    ∧ (handleVideoFileSelect
        (FileDesc.mk "big.mp4" "video/mp4" (JsFile.mk 524288001 (fun _ => 0))) =
          SelectOutcome.errMsg "File size must be less than 500MB"
      ∧ (processFile
          (FileDesc.mk "big.mp4" "video/mp4" (JsFile.mk 524288001 (fun _ => 0)))
          (Env.mk (fun _ => "d") true "pe" true "ue"
            (fun (_ _ : ℕ) => XhrOutcome.load 308))).requests = []
      ∧ (processFile
          (FileDesc.mk "big.mp4" "video/mp4" (JsFile.mk 524288001 (fun _ => 0)))
          (Env.mk (fun _ => "d") true "pe" true "ue"
            (fun (_ _ : ℕ) => XhrOutcome.load 308))).caught =
          some "Video file must be less than 500MB")
    ∧ handleVideoFileSelect
        (FileDesc.mk "ok.mp4" "video/mp4" (JsFile.mk 524288000 (fun _ => 0))) =
          SelectOutcome.selected :=
  ⟨⟨by decide, by decide, by decide⟩,
    (video_size_limit
      (FileDesc.mk "big.mp4" "video/mp4" (JsFile.mk 524288001 (fun _ => 0)))
      (Env.mk (fun _ => "d") true "pe" true "ue"
        (fun (_ _ : ℕ) => XhrOutcome.load 308))).1 (by decide) (by decide),
    ((video_size_limit
      (FileDesc.mk "ok.mp4" "video/mp4" (JsFile.mk 524288000 (fun _ => 0)))
      (Env.mk (fun _ => "d") true "pe" true "ue"
        (fun (_ _ : ℕ) => XhrOutcome.load 308))).2 (by decide) (by decide)).1⟩
